import Mathlib

/-!
# Verification of the `command` package (js-arias/command)

A shallow embedding, in Lean 4, of the command-tree engine implemented in
`command.go`: node registration (`Command.Add`), recursive dispatch
(`Command.Execute`), the help renderer (`help`, `Command.help`), the stdio
resolution chain and the usage-error classifier (`usageError`).

The embedding is split in two models that mirror the two independent
aspects of the code:

* a *registration model* (`Reg`, `add`) that captures the pointer graph
  manipulated by `Command.Add` — nodes are identifiers, the `parent`
  pointers are an association list, and the cycle-detection walk
  `for p := c; p != nil; p = p.parent` is a fuelled chain computation;

* a *tree model* (`Cmd`, `executeT`, `helpRun`, `helpText`) that captures
  the recursive dispatch of `Command.Execute` over an already-built tree.
  Go writes `Execute` against parent pointers only to recover ancestor
  names and inherited stdio streams; the model passes those down the
  recursion explicitly (`anc`, inherited writers), which is the same
  information flow.

External collaborators are modelled as the spec directs: the flag adapter
(`flag.FlagSet`) is an opaque per-node function returning a
`FlagOutcome`; Go's `unicode`/`strings` primitives are reimplemented
below for the character ranges the package manipulates (ASCII names).
-/

namespace CommandProof

/-! ## Go string primitives used by `command.go` -/

/-- Models `strings.ToLower` (`Char.toLower` lower-cases exactly the ASCII
letters, which is the alphabet of command names in this package). -/
def goToLower (s : String) : String :=
  ⟨s.data.map Char.toLower⟩

/-- Accumulator-based splitting of a character list into maximal runs of
non-whitespace characters (`acc` holds the current run, reversed). -/
def fieldsAux : List Char → List Char → List (List Char)
  | acc, [] => if acc = [] then [] else [acc.reverse]
  | acc, c :: t =>
    if c.isWhitespace then
      if acc = [] then fieldsAux [] t else acc.reverse :: fieldsAux [] t
    else fieldsAux (c :: acc) t

/-- Models `strings.Fields`: the maximal whitespace-free substrings. -/
def goFields (s : String) : List String :=
  (fieldsAux [] s.data).map (fun l => ⟨l⟩)

/-- Models `strings.TrimSpace` (over the ASCII whitespace alphabet that
this package's documentation strings use). -/
def goTrim (s : String) : String :=
  ⟨((s.data.dropWhile Char.isWhitespace).reverse.dropWhile
      Char.isWhitespace).reverse⟩

/-- Models `Command.name`: the first whitespace-delimited token of the
usage string, lower-cased; `""` when the usage has no fields. -/
def goNameOf (u : String) : String :=
  match goFields u with
  | [] => ""
  | f :: _ => goToLower f

/-! ## Registration model (`Command.Add`)

`Command.Add` works on the pointer graph: it walks the `parent` chain of
the receiver and mutates `c.commands` and `child.parent`.  Nodes are
modelled as numeric identifiers; a fixed environment `usg : Nat → String`
gives each node its `Usage` field (`Add` reads nothing else from the
child). -/

/-- The mutable registration state: `pars` is the `parent` pointer of
every node that has one (association list child ↦ parent), `ents` records
every `c.commands[name] = child` insertion as a `(parent, name, child)`
triple. -/
structure Reg where
  pars : List (Nat × Nat)
  ents : List (Nat × String × Nat)
deriving DecidableEq

/-- Association-list lookup, first match wins (Go map lookup; keys are
unique in every reachable state). -/
def alook : List (Nat × Nat) → Nat → Option Nat
  | [], _ => none
  | (k, v) :: t, a => if a = k then some v else alook t a

/-- Does parent `c` already have a child registered under `name`?
(models `_, dup := c.commands[name]`). -/
def entHas : List (Nat × String × Nat) → Nat → String → Bool
  | [], _, _ => false
  | (p, n, _) :: t, c, name => (p = c && n = name) || entHas t c name

/-- The parent chain of `n`: `n`, its parent, its grandparent, … (models
the walk `for p := c; p != nil; p = p.parent`).  The Go loop is unbounded;
the model carries fuel, and `add` supplies `pars.length + 1`, which is
shown below (`chainF_closed`) to exhaust the walk in every acyclic
state — i.e. in every state reachable through `Add`. -/
def chainF (fuel : Nat) (s : Reg) (n : Nat) : List Nat :=
  match fuel with
  | 0 => []
  | f + 1 =>
    n :: (match alook s.pars n with
          | none => []
          | some p => chainF f s p)

/-- The five fatal failures of `Command.Add`, one per `panic` site, in
source order: `adding a nil command`, `adding a command to itself or its
children`, `adding a command without usage`, `command name already in
use`, `command has another parent`. -/
inductive AddErr where
  | nilChild
  | cycleDetected
  | missingName
  | duplicateName
  | alreadyParented
deriving DecidableEq

/-- Models `Command.Add`: the receiver is `c`, the argument is `child`
(`none` models a nil pointer).  The checks appear in the source order of
`command.go`; on success the child's parent pointer is set and the child
is registered under its derived name. -/
def add (usg : Nat → String) (s : Reg) (c : Nat) (child : Option Nat) :
    Except AddErr Reg :=
  match child with
  | none => .error .nilChild
  | some ch =>
    if ch ∈ chainF (s.pars.length + 1) s c then .error .cycleDetected
    else
      let name := goNameOf (usg ch)
      if name = "" then .error .missingName
      else if entHas s.ents c name then .error .duplicateName
      else if (alook s.pars ch).isSome then .error .alreadyParented
      else .ok ⟨(ch, c) :: s.pars, (c, name, ch) :: s.ents⟩

/-- `b` is a strict ancestor of `a` through the parent pointers of `s`. -/
inductive IsAnc (s : Reg) : Nat → Nat → Prop
  | base {a b : Nat} : alook s.pars a = some b → IsAnc s a b
  | step {a p b : Nat} : alook s.pars a = some p → IsAnc s p b → IsAnc s a b

/-- No node is its own strict ancestor. -/
def Acyclic (s : Reg) : Prop := ∀ n, ¬ IsAnc s n n

/-- The states reachable from an empty registry by successful `Add`
calls. -/
inductive Reachable (usg : Nat → String) : Reg → Prop
  | init : Reachable usg ⟨[], []⟩
  | step {s : Reg} {c ch : Nat} {s' : Reg} :
      Reachable usg s → add usg s c (some ch) = .ok s' → Reachable usg s'

/-! ### Soundness and completeness of the fuelled parent-chain walk -/

theorem mem_keys_of_alook {l : List (Nat × Nat)} {a b : Nat}
    (h : alook l a = some b) : a ∈ l.map Prod.fst := by
  induction l with
  | nil => simp [alook] at h
  | cons hd t ih =>
    simp only [alook] at h
    by_cases hk : a = hd.1
    · simp [hk]
    · rcases hd with ⟨k, v⟩
      simp only [if_neg hk] at h
      simp [ih h]

theorem isAnc_of_step {s : Reg} {c p a : Nat}
    (hp : alook s.pars c = some p) (h : a = p ∨ IsAnc s p a) : IsAnc s c a := by
  rcases h with rfl | h
  · exact .base hp
  · exact .step hp h

theorem IsAnc.trans {s : Reg} {a b d : Nat}
    (h₁ : IsAnc s a b) (h₂ : IsAnc s b d) : IsAnc s a d := by
  induction h₁ with
  | base hl => exact .step hl h₂
  | step hl _ ih => exact .step hl (ih h₂)

theorem chainF_zero {s : Reg} {n : Nat} : chainF 0 s n = [] := rfl

theorem chainF_succ_none {s : Reg} {f n : Nat} (hp : alook s.pars n = none) :
    chainF (f + 1) s n = [n] := by
  simp [chainF, hp]

theorem chainF_succ_some {s : Reg} {f n p : Nat} (hp : alook s.pars n = some p) :
    chainF (f + 1) s n = n :: chainF f s p := by
  simp [chainF, hp]

theorem chainF_sound {s : Reg} {a : Nat} :
    ∀ {f c}, a ∈ chainF f s c → a = c ∨ IsAnc s c a := by
  intro f
  induction f with
  | zero => intro c h; simp [chainF_zero] at h
  | succ f ih =>
    intro c h
    rcases hp : alook s.pars c with _ | p
    · rw [chainF_succ_none hp] at h
      simp at h
      exact .inl h
    · rw [chainF_succ_some hp] at h
      rcases List.mem_cons.1 h with h | h
      · exact .inl h
      · exact .inr (isAnc_of_step hp (ih h))

theorem chainF_nodup {s : Reg} (hA : Acyclic s) :
    ∀ (f : Nat) (c : Nat), (chainF f s c).Nodup := by
  intro f
  induction f with
  | zero => intro c; simp [chainF_zero]
  | succ f ih =>
    intro c
    rcases hp : alook s.pars c with _ | p
    · rw [chainF_succ_none hp]; simp
    · rw [chainF_succ_some hp]
      refine List.nodup_cons.2 ⟨?_, ih p⟩
      intro hc
      exact hA c (isAnc_of_step hp (chainF_sound hc))

/-- The walk has found a node with no parent (the Go loop has reached
`p == nil` instead of running out of fuel). -/
def closedEnd (s : Reg) : List Nat → Prop
  | [] => False
  | [x] => alook s.pars x = none
  | _ :: (y :: t) => closedEnd s (y :: t)

theorem closedEnd_cons {s : Reg} {x y : Nat} {t : List Nat} :
    closedEnd s (x :: (y :: t)) = closedEnd s (y :: t) := rfl

theorem closedEnd_or_length {s : Reg} :
    ∀ (f c : Nat), closedEnd s (chainF f s c) ∨ (chainF f s c).length = f := by
  intro f
  induction f with
  | zero => intro c; simp [chainF_zero]
  | succ f ih =>
    intro c
    rcases hp : alook s.pars c with _ | p
    · rw [chainF_succ_none hp]
      exact .inl hp
    · rw [chainF_succ_some hp]
      rcases ih p with h | h
      · rcases hc : chainF f s p with _ | ⟨y, t⟩
        · rw [hc] at h; exact False.elim h
        · rw [hc] at h
          exact .inl h
      · exact .inr (by simp [h])

theorem chainF_keys {s : Reg} :
    ∀ {f c}, ¬ closedEnd s (chainF f s c) →
      ∀ x ∈ chainF f s c, x ∈ s.pars.map Prod.fst := by
  intro f
  induction f with
  | zero => intro c _ x hx; simp [chainF_zero] at hx
  | succ f ih =>
    intro c hcl x hx
    rcases hp : alook s.pars c with _ | p
    · rw [chainF_succ_none hp] at hcl
      exact absurd hp hcl
    · rw [chainF_succ_some hp] at hcl hx
      rcases List.mem_cons.1 hx with rfl | hx
      · exact mem_keys_of_alook hp
      · rcases hc : chainF f s p with _ | ⟨y, t⟩
        · rw [hc] at hx; simp at hx
        · rw [hc] at hcl
          refine ih (c := p) ?_ x hx
          rw [hc]
          exact hcl

/-- In an acyclic state, fuel `pars.length + 1` always exhausts the
parent-chain walk: the loop in `Command.Add` terminates. -/
theorem chainF_closed {s : Reg} (hA : Acyclic s) (c : Nat) :
    closedEnd s (chainF (s.pars.length + 1) s c) := by
  by_contra hcl
  rcases closedEnd_or_length (s := s) (s.pars.length + 1) c with h | h
  · exact hcl h
  · have hsub : chainF (s.pars.length + 1) s c ⊆ s.pars.map Prod.fst :=
      fun x hx => chainF_keys hcl x hx
    have hnd := chainF_nodup hA (s.pars.length + 1) c
    have hle : (chainF (s.pars.length + 1) s c).length ≤ s.pars.length := by
      calc (chainF (s.pars.length + 1) s c).length
          = (chainF (s.pars.length + 1) s c).toFinset.card :=
            (List.toFinset_card_of_nodup hnd).symm
        _ ≤ (s.pars.map Prod.fst).toFinset.card :=
            Finset.card_le_card (fun x hx =>
              List.mem_toFinset.2 (hsub (List.mem_toFinset.1 hx)))
        _ ≤ (s.pars.map Prod.fst).length := List.toFinset_card_le _
        _ = s.pars.length := List.length_map _ _
    omega

theorem chainF_complete {s : Reg} {a : Nat} :
    ∀ {f c}, closedEnd s (chainF f s c) → (a = c ∨ IsAnc s c a) →
      a ∈ chainF f s c := by
  intro f
  induction f with
  | zero => intro c hcl; rw [chainF_zero] at hcl; exact False.elim hcl
  | succ f ih =>
    intro c hcl hanc
    rcases hp : alook s.pars c with _ | p
    · rw [chainF_succ_none hp]
      rcases hanc with rfl | hanc
      · simp
      · cases hanc with
        | base hl => rw [hp] at hl; cases hl
        | step hl _ => rw [hp] at hl; cases hl
    · rw [chainF_succ_some hp] at hcl ⊢
      rcases hc : chainF f s p with _ | ⟨y, t⟩
      · rw [hc] at hcl
        have hnone : alook s.pars c = none := hcl
        rw [hp] at hnone
        cases hnone
      · rw [hc] at hcl
        have hcl' : closedEnd s (chainF f s p) := by rw [hc]; exact hcl
        rcases hanc with rfl | hanc
        · simp
        · have hstep : a = p ∨ IsAnc s p a := by
            cases hanc with
            | base hl =>
              rw [hp] at hl
              injection hl with h
              exact .inl h.symm
            | step hl ht =>
              rw [hp] at hl
              injection hl with h
              rw [h]
              exact .inr ht
          have hmem := ih hcl' hstep
          rw [hc] at hmem
          simp [hmem]

/-! ### Acyclicity is preserved by `Add` -/

theorem alook_cons {t : List (Nat × Nat)} {ch c a : Nat} :
    alook ((ch, c) :: t) a = if a = ch then some c else alook t a := rfl

/-- Decomposing an ancestor path in the extended state `s'`
(`s` plus the single new edge `ch ↦ c`, where `ch` had no parent):
either the path avoids the new edge entirely, or it passes through it. -/
theorem isAnc_insert {s : Reg} {ch c : Nat} {e : List (Nat × String × Nat)}
    {a b : Nat}
    (h : IsAnc ⟨(ch, c) :: s.pars, e⟩ a b) :
    IsAnc s a b ∨
      ((a = ch ∨ IsAnc s a ch) ∧
        (c = b ∨ IsAnc ⟨(ch, c) :: s.pars, e⟩ c b)) := by
  induction h with
  | base hl =>
    rename_i a' b'
    by_cases ha : a' = ch
    · rw [show (⟨(ch, c) :: s.pars, e⟩ : Reg).pars = (ch, c) :: s.pars from rfl,
        alook_cons, if_pos ha] at hl
      injection hl with hb
      exact .inr ⟨.inl ha, .inl hb⟩
    · rw [show (⟨(ch, c) :: s.pars, e⟩ : Reg).pars = (ch, c) :: s.pars from rfl,
        alook_cons, if_neg ha] at hl
      exact .inl (.base hl)
  | step hl ht ih =>
    rename_i a' p' b'
    by_cases ha : a' = ch
    · rw [show (⟨(ch, c) :: s.pars, e⟩ : Reg).pars = (ch, c) :: s.pars from rfl,
        alook_cons, if_pos ha] at hl
      injection hl with hp
      exact .inr ⟨.inl ha, .inr (hp ▸ ht)⟩
    · rw [show (⟨(ch, c) :: s.pars, e⟩ : Reg).pars = (ch, c) :: s.pars from rfl,
        alook_cons, if_neg ha] at hl
      rcases ih with ih | ⟨ihp, ihc⟩
      · exact .inl (.step hl ih)
      · exact .inr ⟨.inr (isAnc_of_step hl (ihp.imp Eq.symm id)), ihc⟩

/-- Adding the edge `ch ↦ c` keeps the state acyclic, provided `ch` had
no parent and `ch` is not `c` itself nor one of `c`'s ancestors — which
is exactly what the checks in `Command.Add` establish. -/
theorem acyclic_insert {s : Reg} {ch c : Nat} {e : List (Nat × String × Nat)}
    (hA : Acyclic s) (hch : alook s.pars ch = none)
    (hno : ¬ (ch = c ∨ IsAnc s c ch)) :
    Acyclic ⟨(ch, c) :: s.pars, e⟩ := by
  intro n hn
  have hcch : ¬ (c = ch ∨ IsAnc s c ch) := by
    rintro (h | h)
    · exact hno (.inl h.symm)
    · exact hno (.inr h)
  rcases isAnc_insert hn with hs | ⟨hnch, hcn⟩
  · exact hA n hs
  · rcases hcn with rfl | hcn
    · exact hcch hnch
    · rcases isAnc_insert hcn with hs | ⟨hcchain, _⟩
      · rcases hnch with rfl | hnch
        · exact hcch (.inr hs)
        · exact hcch (.inr (hs.trans hnch))
      · exact hcch hcchain

/-- Inverting a successful `add`: the structure of the new state and the
facts established by the checks. -/
theorem add_ok_inv {usg : Nat → String} {s : Reg} {c ch : Nat} {s' : Reg}
    (h : add usg s c (some ch) = .ok s') :
    ch ∉ chainF (s.pars.length + 1) s c ∧ alook s.pars ch = none ∧
      s' = ⟨(ch, c) :: s.pars, (c, goNameOf (usg ch), ch) :: s.ents⟩ := by
  simp only [add] at h
  split_ifs at h with h1 h2 h3 h4
  · refine ⟨h1, ?_, ?_⟩
    · exact Option.not_isSome_iff_eq_none.1 h4
    · injection h with h'
      exact h'.symm

theorem reachable_acyclic {usg : Nat → String} {s : Reg}
    (h : Reachable usg s) : Acyclic s := by
  induction h with
  | init =>
    intro n hn
    cases hn with
    | base hl => cases hl
    | step hl _ => cases hl
  | step hr hok ih =>
    rename_i s₀ c ch s'
    obtain ⟨hnm, hch, rfl⟩ := add_ok_inv hok
    refine acyclic_insert ih hch ?_
    intro hanc
    exact hnm (chainF_complete (chainF_closed ih c) (by tauto))

/-! ### Claims C4 and C5 -/

/-- **C4.** For every registration state reachable by successful `Add`
calls: linking a node as a child of itself or of any node of its own
descendant chain (equivalently: adding `ch` to a target `c` that is `ch`
itself or a strict descendant of `ch`) is rejected with the
cycle-detection failure, because the candidate child is found on the
parent-chain walk from the target; and consequently every reachable
state is acyclic — no node is its own strict ancestor, and the parent
relation (a partial map from child to parent) is a forest. -/
theorem add_rejects_cycles_and_keeps_forest (usg : Nat → String) (s : Reg)
    (h : Reachable usg s) :
    Acyclic s ∧
      ∀ c ch, (ch = c ∨ IsAnc s c ch) →
        add usg s c (some ch) = .error .cycleDetected := by
  have hA := reachable_acyclic h
  refine ⟨hA, fun c ch hanc => ?_⟩
  have hmem : ch ∈ chainF (s.pars.length + 1) s c :=
    chainF_complete (chainF_closed hA c) hanc
  simp [add, hmem]

/-- Usage environment for the concrete registration scenarios: node 0 is
`root`, every other node is `kid`. -/
def usgW : Nat → String := fun n => if n = 0 then "root" else "kid"

/-- The registry after `root.Add(kid)` (node 1 under node 0). -/
def sW : Reg := ⟨[(1, 0)], [(0, "kid", 1)]⟩

theorem sW_reachable : Reachable usgW sW :=
  @Reachable.step usgW ⟨[], []⟩ 0 1 sW .init (by rfl)

/-- Witness for C4: in the concrete one-edge registry, adding the root
back under its own child is rejected with the cycle failure, and the
registry is acyclic. -/
theorem add_rejects_cycles_and_keeps_forest_witness :
    add usgW sW 1 (some 0) = .error .cycleDetected ∧ Acyclic sW :=
  ⟨(add_rejects_cycles_and_keeps_forest usgW sW sW_reachable).2 1 0
      (.inr (.base (by rfl))),
    (add_rejects_cycles_and_keeps_forest usgW sW sW_reachable).1⟩

/-- **C5.** The precondition checks of `Add` fire in source order: a nil
child short-circuits everything; the parent-chain (cycle) walk runs
before the name-derivation checks; the cycle failure takes precedence
over the duplicate-name failure; and the duplicate-name failure takes
precedence over the already-parented failure.  Each conjunct states the
failure reported when all earlier checks pass, with no assumption on the
later checks — so a child violating several preconditions at once gets
the earliest failure. -/
theorem add_check_order (usg : Nat → String) (s : Reg) :
    (∀ c, add usg s c none = .error .nilChild) ∧
    (∀ c ch, ch ∈ chainF (s.pars.length + 1) s c →
      add usg s c (some ch) = .error .cycleDetected) ∧
    (∀ c ch, ch ∉ chainF (s.pars.length + 1) s c →
      goNameOf (usg ch) = "" →
      add usg s c (some ch) = .error .missingName) ∧
    (∀ c ch, ch ∉ chainF (s.pars.length + 1) s c →
      goNameOf (usg ch) ≠ "" → entHas s.ents c (goNameOf (usg ch)) = true →
      add usg s c (some ch) = .error .duplicateName) ∧
    (∀ c ch, ch ∉ chainF (s.pars.length + 1) s c →
      goNameOf (usg ch) ≠ "" → entHas s.ents c (goNameOf (usg ch)) = false →
      (alook s.pars ch).isSome →
      add usg s c (some ch) = .error .alreadyParented) := by
  refine ⟨fun c => rfl, fun c ch h => by simp [add, h],
    fun c ch h hn => by simp [add, h, hn],
    fun c ch h hn hd => by simp [add, h, hn, hd],
    fun c ch h hn hd hp => by simp [add, h, hn, hd, hp]⟩

/-- A registry crafted so that single `Add` calls violate several
preconditions at once: node 1 is a child of node 0; the name `kid` is
already in use under node 0, and the name `root` under node 1. -/
def sW5 : Reg := ⟨[(1, 0)], [(0, "kid", 1), (1, "root", 2)]⟩

/-- Witness for C5: adding node 0 under node 1 violates both the cycle
check and the duplicate-name check (name `root` under node 1) — and the
result is the cycle failure; adding node 1 under node 0 violates both the
duplicate-name and the already-parented checks — and the result is the
duplicate-name failure. -/
theorem add_check_order_witness :
    add usgW sW5 1 (some 0) = .error .cycleDetected ∧
      add usgW sW5 0 (some 1) = .error .duplicateName :=
  ⟨(add_check_order usgW sW5).2.1 1 0 (by decide),
    (add_check_order usgW sW5).2.2.2.1 0 1 (by decide) (by decide) (by decide)⟩

/-! ## Tree model (`Command.Execute`, `Command.help`, `help`)

Dispatch never adds or removes nodes, so it is modelled over a tree
value.  What Go recovers through `parent` pointers — ancestor names for
`longName`/`longUsage`/`helpPath` and inherited stdio writers for
`Stdout`/`Stderr` — is passed down the recursion: `anc` is the list of
ancestor names (root first) and the inherited writers are the resolved
streams of the parent. -/

/-- Outcome of `c.flags.Parse(args)` (together with `c.flags.Args()`):
the flag adapter is external (`flag.FlagSet`), so each node carries its
parse behaviour as an opaque function producing one of: a help request
(`flag.ErrHelp`), a failure message, or the remaining positional
arguments. -/
inductive FlagOutcome where
  | help
  | failure (msg : String)
  | ok (rest : List String)
deriving DecidableEq

/-- A Go `error` as this package distinguishes them: `usageErr from msg`
models a `usageError{c, msg}` value (with `from` the long name of the
attributed node `c`); `plainErr msg` models any other error with message
`msg`. -/
inductive GoErr where
  | usageErr (attributedTo : String) (msg : String)
  | plainErr (msg : String)
deriving DecidableEq

/-- Models `errors.Is(err, usageError{})`, which holds exactly for
`usageError` values thanks to `usageError.Is`. -/
def isUsageError : GoErr → Bool
  | .usageErr _ _ => true
  | .plainErr _ => false

/-- An output stream: the process streams (`os.Stdout`, `os.Stderr`) or
an override installed with `SetStdout`/`SetStderr`. -/
inductive SWriter where
  | procOut
  | procErr
  | custom (id : Nat)
deriving DecidableEq

/-- A command node: the declarative fields of Go's `Command` struct
(`Usage`, `Short`, `Long`, `Run`, `SetFlags` fused with the flag adapter
into `flagParse`, the stdio overrides), the transient `flags` state
(modelled as the argument list most recently handed to `Parse`), and the
`commands` child map as an association list from stored (lower-cased)
name to child. -/
inductive Cmd where
  | mk (usage short long : String)
      (run : Option (List String → Option GoErr))
      (flagParse : List String → FlagOutcome)
      (stdinO stdoutO stderrO : Option SWriter)
      (flags : Option (List String))
      (commands : List (String × Cmd))

@[simp] def Cmd.usage : Cmd → String
  | .mk u _ _ _ _ _ _ _ _ _ => u

@[simp] def Cmd.short : Cmd → String
  | .mk _ s _ _ _ _ _ _ _ _ => s

@[simp] def Cmd.long : Cmd → String
  | .mk _ _ l _ _ _ _ _ _ _ => l

@[simp] def Cmd.run : Cmd → Option (List String → Option GoErr)
  | .mk _ _ _ r _ _ _ _ _ _ => r

@[simp] def Cmd.flagParse : Cmd → List String → FlagOutcome
  | .mk _ _ _ _ fp _ _ _ _ _ => fp

@[simp] def Cmd.stdinO : Cmd → Option SWriter
  | .mk _ _ _ _ _ si _ _ _ _ => si

@[simp] def Cmd.stdoutO : Cmd → Option SWriter
  | .mk _ _ _ _ _ _ so _ _ _ => so

@[simp] def Cmd.stderrO : Cmd → Option SWriter
  | .mk _ _ _ _ _ _ _ se _ _ => se

@[simp] def Cmd.flags : Cmd → Option (List String)
  | .mk _ _ _ _ _ _ _ _ fl _ => fl

@[simp] def Cmd.commands : Cmd → List (String × Cmd)
  | .mk _ _ _ _ _ _ _ _ _ kids => kids

/-- Models `Command.name`. -/
def Cmd.name (c : Cmd) : String := goNameOf c.usage

/-- Models `Command.hasChildren`. -/
def Cmd.hasChildren (c : Cmd) : Bool := !c.commands.isEmpty

/-- Models `c.flags = flag.NewFlagSet(...)` followed by `SetFlags` and
`Parse`: the node's transient flag state now reflects `args`. -/
@[simp] def Cmd.withFlags : Cmd → List String → Cmd
  | .mk u s l r fp si so se _ kids, args => .mk u s l r fp si so se (some args) kids

@[simp] def Cmd.withKids : Cmd → List (String × Cmd) → Cmd
  | .mk u s l r fp si so se fl _, kids => .mk u s l r fp si so se fl kids

/-- Association-list lookup in the child map, first match wins. -/
def alookS : List (String × Cmd) → String → Option Cmd
  | [], _ => none
  | (k, v) :: t, a => if a = k then some v else alookS t a

/-- Models `Command.child`: lower-case the queried name, reject the empty
name, then look it up in the child map. -/
def childFind (kids : List (String × Cmd)) (nm : String) : Option Cmd :=
  let n := goToLower nm
  if n = "" then none else alookS kids n

/-- Replace the child stored under key `k` (the Go code mutates the child
in place through the map's pointer). -/
def replaceKid : List (String × Cmd) → String → Cmd → List (String × Cmd)
  | [], _, _ => []
  | (k, v) :: t, a, c => if a = k then (k, c) :: t else (k, v) :: replaceKid t a c

/-- Models `sort.Strings` (byte order and code-point order agree for
UTF-8 strings). -/
def sortStrings (l : List String) : List String :=
  l.insertionSort (· ≤ ·)

/-- Models `Command.children`: the children's names, sorted. -/
def childNames (kids : List (String × Cmd)) : List String :=
  sortStrings (kids.map (fun p => p.2.name))

/-- Models `Command.longName` (`anc` are the ancestor names, root
first). -/
def longNameOf (anc : List String) (c : Cmd) : String :=
  String.intercalate " " (anc ++ [c.name])

/-- Models `Command.longUsage`. -/
def longUsageOf (anc : List String) (c : Cmd) : String :=
  String.intercalate " " (anc ++ [c.usage])

/-- Models `Command.helpPath`: the full name path with the literal token
`help` spliced in right after the root name. -/
def helpPathOf (anc : List String) (c : Cmd) : String :=
  match anc ++ [c.name] with
  | [] => ""
  | h :: t => String.intercalate " " (h :: "help" :: t)

/-- Models the `%-16s` format verb: left-justify in a 16-rune field. -/
def pad16 (s : String) : String :=
  s ++ ⟨List.replicate (16 - s.length) ' '⟩

/-- Models the `%q` verb on the strings this package renders (printable
payloads: only quote and backslash need escaping). -/
def goQuote (s : String) : String :=
  "\"" ++ ⟨(s.data.map fun c =>
    if c = '"' then ['\\', '"']
    else if c = '\\' then ['\\', '\\']
    else [c]).flatten⟩ ++ "\""

/-- Models `toTitle`: re-join the whitespace-separated fields with single
spaces, then title-case the first rune (`unicode.ToTitle` agrees with
`Char.toUpper` on the ASCII range this package uses). -/
def goToTitle (s : String) : String :=
  let j := String.intercalate " " (goFields s)
  match j.data with
  | [] => ""
  | ch :: t => ⟨Char.toUpper ch :: t⟩

/-- The first loop of `help`: one `    <name padded> <short>` line per
non-topic child, in the given name order, and a flag recording whether
some child was a help topic (no `Run`, no children). -/
def cmdLines (kids : List (String × Cmd)) : List String → String × Bool
  | [] => ("", false)
  | n :: t =>
    let rest := cmdLines kids t
    match childFind kids n with
    | none => rest
    | some cmd =>
      if cmd.run.isNone && !cmd.hasChildren then (rest.1, true)
      else ("    " ++ pad16 cmd.name ++ " " ++ cmd.short ++ "\n" ++ rest.1, rest.2)

/-- The second loop of `help`: one line per help-topic child. -/
def topicLines (kids : List (String × Cmd)) : List String → String
  | [] => ""
  | n :: t =>
    match childFind kids n with
    | none => topicLines kids t
    | some tc =>
      if tc.run.isSome || tc.hasChildren then topicLines kids t
      else "    " ++ pad16 tc.name ++ " " ++ tc.short ++ "\n" ++ topicLines kids t

/-- Models the static renderer `help(w, c)` (the full text written to
`w`). -/
def helpText (anc : List String) (c : Cmd) : String :=
  let head := goToTitle c.short ++ "\n\n"
    ++ (if c.run.isSome || c.hasChildren then
          "Usage:\n\n    " ++ longUsageOf anc c ++ "\n\n" else "")
    ++ (if goTrim c.long ≠ "" then goTrim c.long ++ "\n\n" else "")
  if !c.hasChildren then head
  else
    let names := childNames c.commands
    let cl := cmdLines c.commands names
    let hp := helpPathOf anc c
    let main := head ++ "The commands are:\n\n" ++ cl.1
      ++ "\nUse " ++ goQuote (hp ++ " <command>")
      ++ " for more information about a command.\n\n"
    if !cl.2 then main
    else main ++ "Additional help topics:\n\n" ++ topicLines c.commands names
      ++ "\nUse " ++ goQuote (hp ++ " <topic>")
      ++ " for more information about that topic.\n\n"

/-- Models `Command.usage(w)`: a one-line usage string, printed only for
runnable nodes. -/
def usageEff (w : SWriter) (anc : List String) (c : Cmd) :
    List (SWriter × String) :=
  if c.run.isNone then []
  else [(w, "usage: " ++ longUsageOf anc c ++ "\n")]

/-- Models the interactive help resolver `Command.help(args)`.  `outW` is
the node's resolved standard output (`c.Stdout()`); the result is the
returned error (if any) together with the writes performed.  The Go
recursion descends the tree, so the model carries fuel; `none` means the
fuel ran out, which never happens for fuel exceeding the tree depth. -/
def helpRun : Nat → List String → SWriter → Cmd → List String →
    Option (Except GoErr Unit × List (SWriter × String))
  | 0, _, _, _, _ => none
  | _ + 1, anc, outW, c, [] => some (.ok (), [(outW, helpText anc c)])
  | f + 1, anc, outW, c, a :: rest =>
    match childFind c.commands a with
    | none =>
      some (.error (.plainErr (helpPathOf anc c ++ " "
        ++ String.intercalate " " (a :: rest)
        ++ ": unknown help topic. Run " ++ goQuote (helpPathOf anc c))), [])
    | some ch => helpRun f (anc ++ [c.name]) (ch.stdoutO.getD outW) ch rest

/-- Models `Command.Execute(args)`.  `inhOut`/`inhErr` are the writers the
node would inherit from its ancestors (`Stdout()`/`Stderr()` of the
parent; the process streams at the root).  The result is the returned
error (if any), the writes performed, and the tree after the call (Go
mutates the visited nodes' `flags` fields in place).  Fuel `none` as in
`helpRun`. -/
def executeT : Nat → List String → SWriter → SWriter → Cmd → List String →
    Option (Except GoErr Unit × List (SWriter × String) × Cmd)
  | 0, _, _, _, _, _ => none
  | f + 1, anc, inhOut, inhErr, c, args =>
    let cf := c.withFlags args
    let outW := c.stdoutO.getD inhOut
    let errW := c.stderrO.getD inhErr
    match c.flagParse args with
    | .help =>
      if c.hasChildren then some (.ok (), [(errW, helpText anc c)], cf)
      else if c.run.isNone then some (.ok (), [(outW, helpText anc c)], cf)
      else some (.ok (), usageEff errW anc c, cf)
    | .failure m =>
      some (.error (.usageErr (longNameOf anc c) (longNameOf anc c ++ ": " ++ m)),
        [], cf)
    | .ok rest =>
      match c.run with
      | some act =>
        match act rest with
        | none => some (.ok (), [], cf)
        | some (.usageErr p m) => some (.error (.usageErr p m), [], cf)
        | some (.plainErr m) =>
          some (.error (.plainErr (longNameOf anc c ++ ": " ++ m)), [], cf)
      | none =>
        if !c.hasChildren then
          some (.error (.usageErr (longNameOf anc c)
            (longNameOf anc c ++ ": unknown command")), [], cf)
        else
          match rest with
          | [] => some (.ok (), [(errW, helpText anc c)], cf)
          | tok :: rest' =>
            match childFind c.commands tok with
            | some ch =>
              match executeT f (anc ++ [c.name]) outW errW ch rest' with
              | none => none
              | some (r, effs, ch') =>
                some (r, effs, cf.withKids (replaceKid cf.commands (goToLower tok) ch'))
            | none =>
              if goToLower tok ≠ "help" then
                some (.error (.usageErr (longNameOf anc c)
                  (longNameOf anc c ++ " " ++ tok ++ ": unknown command")), [], cf)
              else
                match helpRun f anc outW cf rest' with
                | none => none
                | some (r, effs) => some (r, effs, cf)

/-! ### Claim C6: help-request routing -/

/-- **C6.** When flag parsing signals a help request (`flag.ErrHelp`,
from `-h`/`--help`), `Execute` returns success (`nil`) and routes the
rendering: a node with at least one child renders the full help to its
resolved error stream; a node with no children and no action renders the
full help to its resolved standard output; a runnable leaf renders the
one-line usage string to its resolved error stream. -/
theorem help_request_routing (f : Nat) (anc : List String) (io ie : SWriter)
    (c : Cmd) (args : List String) (hfp : c.flagParse args = .help) :
    (c.hasChildren = true →
      executeT (f + 1) anc io ie c args =
        some (.ok (), [(c.stderrO.getD ie, helpText anc c)], c.withFlags args)) ∧
    (c.hasChildren = false → c.run = none →
      executeT (f + 1) anc io ie c args =
        some (.ok (), [(c.stdoutO.getD io, helpText anc c)], c.withFlags args)) ∧
    (c.hasChildren = false → c.run.isSome →
      executeT (f + 1) anc io ie c args =
        some (.ok (), [(c.stderrO.getD ie, "usage: " ++ longUsageOf anc c ++ "\n")],
          c.withFlags args)) := by
  obtain ⟨u, s, l, r, fp, si, so, se, fl, kids⟩ := c
  simp only [Cmd.flagParse] at hfp
  refine ⟨fun hk => ?_, fun hk hr => ?_, fun hk hr => ?_⟩
  · simp only [Cmd.hasChildren, Cmd.commands] at hk
    simp [executeT, hfp, Cmd.hasChildren, hk]
  · simp only [Cmd.run] at hr
    subst hr
    simp only [Cmd.hasChildren, Cmd.commands] at hk
    simp [executeT, hfp, Cmd.hasChildren, hk]
  · simp only [Cmd.run] at hr
    rcases Option.isSome_iff_exists.1 hr with ⟨act, hact⟩
    subst hact
    simp only [Cmd.hasChildren, Cmd.commands] at hk
    simp [executeT, hfp, Cmd.hasChildren, hk, usageEff]

/-- A flag adapter with no declared flags that consumes nothing: `Parse`
succeeds and returns the arguments unchanged. -/
def fpPass : List String → FlagOutcome := fun args => .ok args

/-- A flag adapter invocation that signalled `-h`/`--help`. -/
def fpHelp : List String → FlagOutcome := fun _ => .help

def w6kid : Cmd := .mk "kid" "" "" none fpPass none none none none []

def w6parent : Cmd :=
  .mk "par" "" "" none fpHelp none none none none [("kid", w6kid)]

def w6topic : Cmd := .mk "top" "a topic" "" none fpHelp none none none none []

def w6leaf : Cmd :=
  .mk "leaf" "" "" (some fun _ => none) fpHelp none none none none []

/-- Witness for C6: the three routing branches on concrete nodes. -/
theorem help_request_routing_witness :
    executeT 1 [] .procOut .procErr w6parent ["-h"] =
      some (.ok (), [(SWriter.procErr, helpText [] w6parent)],
        w6parent.withFlags ["-h"]) ∧
    executeT 1 [] .procOut .procErr w6topic ["-h"] =
      some (.ok (), [(SWriter.procOut, helpText [] w6topic)],
        w6topic.withFlags ["-h"]) ∧
    executeT 1 [] .procOut .procErr w6leaf ["-h"] =
      some (.ok (), [(SWriter.procErr, "usage: " ++ longUsageOf [] w6leaf ++ "\n")],
        w6leaf.withFlags ["-h"]) :=
  ⟨(help_request_routing 0 [] .procOut .procErr w6parent ["-h"] rfl).1 rfl,
    (help_request_routing 0 [] .procOut .procErr w6topic ["-h"] rfl).2.1 rfl rfl,
    (help_request_routing 0 [] .procOut .procErr w6leaf ["-h"] rfl).2.2 rfl rfl⟩

/-! ### Claim C2: action errors are wrapped exactly once -/

/-- **C2.** When a node's action (`Run`) returns an error: a usage error
is propagated unchanged; any other error is wrapped exactly once as
`<node full path>: <message>` at that node; and the recursive dispatch
step propagates a child's outcome (error and writes) unchanged, so no
ancestor re-wraps an error that is already a usage error or already
path-prefixed. -/
theorem run_error_wrapped_once (f : Nat) (anc : List String) (io ie : SWriter)
    (c : Cmd) (args : List String) :
    (∀ act rest m, c.run = some act → c.flagParse args = .ok rest →
      act rest = some (.plainErr m) →
      executeT (f + 1) anc io ie c args =
        some (.error (.plainErr (longNameOf anc c ++ ": " ++ m)), [],
          c.withFlags args)) ∧
    (∀ act rest e, c.run = some act → c.flagParse args = .ok rest →
      act rest = some e → isUsageError e = true →
      executeT (f + 1) anc io ie c args = some (.error e, [], c.withFlags args)) ∧
    (∀ tok rest' ch, c.run = none → c.flagParse args = .ok (tok :: rest') →
      childFind c.commands tok = some ch →
      (executeT (f + 1) anc io ie c args).map (fun r => (r.1, r.2.1)) =
        (executeT f (anc ++ [c.name]) (c.stdoutO.getD io) (c.stderrO.getD ie)
          ch rest').map (fun r => (r.1, r.2.1))) := by
  obtain ⟨u, s, l, r, fp, si, so, se, fl, kids⟩ := c
  refine ⟨fun act rest m hr hfp hact => ?_, fun act rest e hr hfp hact hue => ?_,
    fun tok rest' ch hr hfp hch => ?_⟩
  · simp only [Cmd.run] at hr
    subst hr
    simp only [Cmd.flagParse] at hfp
    simp [executeT, hfp, hact]
  · simp only [Cmd.run] at hr
    subst hr
    simp only [Cmd.flagParse] at hfp
    cases e with
    | usageErr p m => simp [executeT, hfp, hact]
    | plainErr m => simp [isUsageError] at hue
  · simp only [Cmd.run] at hr
    subst hr
    simp only [Cmd.flagParse] at hfp
    simp only [Cmd.commands] at hch
    have hkids : kids ≠ [] := by
      rintro rfl
      simp [childFind, alookS] at hch
    simp only [executeT, Cmd.hasChildren, Cmd.commands, Cmd.run, Cmd.flagParse,
      hfp, hch, List.isEmpty_eq_true, hkids]
    rcases hE : executeT f (anc ++ [Cmd.name (Cmd.mk u s l none fp si so se fl kids)])
        (Cmd.stdoutO (Cmd.mk u s l none fp si so se fl kids) |>.getD io)
        (Cmd.stderrO (Cmd.mk u s l none fp si so se fl kids) |>.getD ie)
        ch rest' with _ | ⟨r', effs, ch'⟩ <;>
      simp [executeT, hE, hfp, hch, Cmd.hasChildren, hkids]

def w2boom : Cmd :=
  .mk "boom" "" "" (some fun _ => some (.plainErr "x")) fpPass none none none none []

def w2usage : Cmd :=
  .mk "uarg" "" "" (some fun _ => some (.usageErr "uarg" "uarg: bad argument"))
    fpPass none none none none []

def w2app : Cmd := .mk "app" "" "" none fpPass none none none none [("boom", w2boom)]

/-- Witness for C2: a plain action error is wrapped with the node's path;
a usage error from the action is returned unchanged; the parent dispatch
step returns the child's outcome unchanged. -/
theorem run_error_wrapped_once_witness :
    executeT 1 [] .procOut .procErr w2boom [] =
      some (.error (.plainErr "boom: x"), [], w2boom.withFlags []) ∧
    executeT 1 [] .procOut .procErr w2usage [] =
      some (.error (.usageErr "uarg" "uarg: bad argument"), [], w2usage.withFlags []) ∧
    (executeT 2 [] .procOut .procErr w2app ["boom"]).map (fun r => (r.1, r.2.1)) =
      (executeT 1 ["app"] .procOut .procErr w2boom []).map (fun r => (r.1, r.2.1)) :=
  ⟨(run_error_wrapped_once 0 [] .procOut .procErr w2boom []).1 _ [] "x" rfl rfl rfl,
    (run_error_wrapped_once 0 [] .procOut .procErr w2usage []).2.1 _ []
      (.usageErr "uarg" "uarg: bad argument") rfl rfl rfl rfl,
    (run_error_wrapped_once 1 [] .procOut .procErr w2app ["boom"]).2.2 "boom" []
      w2boom rfl rfl rfl⟩

/-! ### Claim C1: dispatch order between the `help` token and child lookup

The claim says the `help` token is recognised *before (and regardless of)
any child lookup*.  The code does the opposite: `Execute` looks the token
up as a child first (`c.child(args[0])`), and only when that lookup fails
compares the lower-cased token with `help` (`command.go`, lines
208-219).  The two orders differ observably whenever a child is
registered under the name `help`. -/

def cexHelpChild : Cmd :=
  .mk "help" "" "" (some fun _ => some (.plainErr "boom")) fpPass none none none none []

def cexC1App : Cmd :=
  .mk "app" "" "" none fpPass none none none none [("help", cexHelpChild)]

/-- Counterexample for C1: on a dispatcher with a runnable child named
`help`, `Execute(["help"])` dispatches into that child (whose action
error surfaces, wrapped), it does not delegate to the interactive help
resolver — whose result on the same arguments is a success that renders
the static help.  So the token `help` is *not* handled before (and
regardless of) the child lookup. -/
theorem dispatch_help_token_counterexample :
    (executeT 2 [] .procOut .procErr cexC1App ["help"]).map (fun r => (r.1, r.2.1)) =
      some (.error (.plainErr "app help: boom"), []) ∧
    (helpRun 2 [] .procOut (cexC1App.withFlags ["help"]) []).map (fun r => r.1) =
      some (.ok ()) ∧
    (executeT 2 [] .procOut .procErr cexC1App ["help"]).map (fun r => r.1) ≠
      (helpRun 2 [] .procOut (cexC1App.withFlags ["help"]) []).map (fun r => r.1) := by
  refine ⟨rfl, rfl, fun h => ?_⟩
  have h' : (some (Except.error (GoErr.plainErr "app help: boom")) :
      Option (Except GoErr Unit)) = some (.ok ()) := h
  simp at h'

/-- **C1 (amended).** In the dispatch phase (node with no action, at
least one child, positional arguments remaining), the first positional
argument is *first looked up as a child* (case-insensitively); when the
lookup succeeds `Execute` recurses into the child — even when the token
is literally `help`.  Only when the lookup fails is the token compared
case-insensitively with `help`: if equal, `Execute` delegates to the
interactive help resolver with the remaining arguments and returns its
result; otherwise it fails with the usage error
`<parent path> <token>: unknown command`. -/
theorem dispatch_lookup_precedes_help_token (f : Nat) (anc : List String)
    (io ie : SWriter) (c : Cmd) (args : List String) (tok : String)
    (rest' : List String) (hrun : c.run = none)
    (hfp : c.flagParse args = .ok (tok :: rest')) :
    (∀ ch, childFind c.commands tok = some ch →
      (executeT (f + 1) anc io ie c args).map (fun r => (r.1, r.2.1)) =
        (executeT f (anc ++ [c.name]) (c.stdoutO.getD io) (c.stderrO.getD ie)
          ch rest').map (fun r => (r.1, r.2.1))) ∧
    (c.hasChildren = true → childFind c.commands tok = none →
      goToLower tok = "help" →
      (executeT (f + 1) anc io ie c args).map (fun r => (r.1, r.2.1)) =
        helpRun f anc (c.stdoutO.getD io) (c.withFlags args) rest') ∧
    (c.hasChildren = true → childFind c.commands tok = none →
      goToLower tok ≠ "help" →
      executeT (f + 1) anc io ie c args =
        some (.error (.usageErr (longNameOf anc c)
          (longNameOf anc c ++ " " ++ tok ++ ": unknown command")), [],
          c.withFlags args)) := by
  obtain ⟨u, s, l, r, fp, si, so, se, fl, kids⟩ := c
  simp only [Cmd.run] at hrun
  subst hrun
  simp only [Cmd.flagParse] at hfp
  refine ⟨fun ch hch => ?_, fun hk hch hhelp => ?_, fun hk hch hhelp => ?_⟩
  · simp only [Cmd.commands] at hch
    have hkids : kids ≠ [] := by
      rintro rfl
      simp [childFind, alookS] at hch
    simp only [executeT, Cmd.hasChildren, Cmd.commands, Cmd.run, Cmd.flagParse,
      hfp, hch, List.isEmpty_eq_true, hkids]
    rcases hE : executeT f (anc ++ [Cmd.name (Cmd.mk u s l none fp si so se fl kids)])
        (Cmd.stdoutO (Cmd.mk u s l none fp si so se fl kids) |>.getD io)
        (Cmd.stderrO (Cmd.mk u s l none fp si so se fl kids) |>.getD ie)
        ch rest' with _ | ⟨r', effs, ch'⟩ <;>
      simp [executeT, hE, hfp, hch, Cmd.hasChildren, hkids]
  · simp only [Cmd.hasChildren, Cmd.commands] at hk
    simp only [Cmd.commands] at hch
    simp only [executeT, Cmd.hasChildren, Cmd.commands, Cmd.run, Cmd.flagParse,
      hfp, hch, hhelp, hk]
    rcases hH : helpRun f anc
        (Cmd.stdoutO (Cmd.mk u s l none fp si so se fl kids) |>.getD io)
        ((Cmd.mk u s l none fp si so se fl kids).withFlags args) rest' with _ | ⟨r', effs⟩ <;>
      simp [executeT, hH, hfp, hch, hhelp, Cmd.hasChildren, hk]
  · simp only [Cmd.hasChildren, Cmd.commands] at hk
    simp only [Cmd.commands] at hch
    simp [executeT, hfp, hch, hhelp, Cmd.hasChildren, hk]

def w1kid : Cmd := .mk "kid" "" "" (some fun _ => none) fpPass none none none none []

def w1app : Cmd := .mk "base" "" "" none fpPass none none none none [("kid", w1kid)]

/-- Witness for C1: on a dispatcher with a single child `kid`, the token
`kid` dispatches into the child, the token `help` (no child of that
name) delegates to the help resolver, and an unknown token fails with
the attributed usage error. -/
theorem dispatch_lookup_precedes_help_token_witness :
    (executeT 2 [] .procOut .procErr w1app ["kid"]).map (fun r => (r.1, r.2.1)) =
      (executeT 1 ["base"] .procOut .procErr w1kid []).map (fun r => (r.1, r.2.1)) ∧
    (executeT 2 [] .procOut .procErr w1app ["help"]).map (fun r => (r.1, r.2.1)) =
      helpRun 1 [] .procOut (w1app.withFlags ["help"]) [] ∧
    executeT 2 [] .procOut .procErr w1app ["nope"] =
      some (.error (.usageErr "base" "base nope: unknown command"), [],
        w1app.withFlags ["nope"]) :=
  ⟨(dispatch_lookup_precedes_help_token 1 [] .procOut .procErr w1app ["kid"]
      "kid" [] rfl rfl).1 w1kid rfl,
    (dispatch_lookup_precedes_help_token 1 [] .procOut .procErr w1app ["help"]
      "help" [] rfl rfl).2.1 rfl rfl rfl,
    (dispatch_lookup_precedes_help_token 1 [] .procOut .procErr w1app ["nope"]
      "nope" [] rfl rfl).2.2 rfl rfl (by decide)⟩

/-! ### Claim C3: which errors carry the structural usage tag

The claim says the unknown-help-topic error is a usage error recognised
by the structural `Is` check, like the flag-parse and unknown-command
errors.  In the code it is not: `Command.help` builds it with
`fmt.Errorf` (`command.go`, line 360), which produces a plain error
without the `usageError` tag, so `errors.Is(err, usageError{})` is false
for it (and `Main` would print it as an execution error, without the
usage line). -/

def cexC3Kid : Cmd := .mk "sub" "" "" (some fun _ => none) fpPass none none none none []

def cexC3App : Cmd :=
  .mk "app" "" "" none fpPass none none none none [("sub", cexC3Kid)]

/-- Counterexample for C3: the unknown-help-topic failure is returned as
a plain formatted error that does *not* satisfy the structural
usage-error check. -/
theorem help_topic_error_not_usage_counterexample :
    helpRun 2 [] .procOut cexC3App ["bogus"] =
      some (.error (.plainErr
        "app help bogus: unknown help topic. Run \"app help\""), []) ∧
    isUsageError (.plainErr
      "app help bogus: unknown help topic. Run \"app help\"") = false :=
  ⟨rfl, rfl⟩

/-- **C3 (amended).** The flag-parse failure and the unknown-command
failure are usage errors recognised by the structural tag (the
`usageError.Is` check), each attributed to one node; the unknown-help-
topic failure of the interactive help resolver, however, is a plain
formatted error (`fmt.Errorf`) that does not satisfy the structural
check. -/
theorem usage_error_tagging (f : Nat) (anc : List String) (io ie w : SWriter)
    (c : Cmd) (args : List String) :
    (∀ m, c.flagParse args = .failure m →
      executeT (f + 1) anc io ie c args =
        some (.error (.usageErr (longNameOf anc c) (longNameOf anc c ++ ": " ++ m)),
          [], c.withFlags args) ∧
      isUsageError (.usageErr (longNameOf anc c) (longNameOf anc c ++ ": " ++ m)) =
        true) ∧
    (∀ tok rest', c.run = none → c.hasChildren = true →
      c.flagParse args = .ok (tok :: rest') →
      childFind c.commands tok = none → goToLower tok ≠ "help" →
      executeT (f + 1) anc io ie c args =
        some (.error (.usageErr (longNameOf anc c)
          (longNameOf anc c ++ " " ++ tok ++ ": unknown command")), [],
          c.withFlags args) ∧
      isUsageError (.usageErr (longNameOf anc c)
        (longNameOf anc c ++ " " ++ tok ++ ": unknown command")) = true) ∧
    (∀ a rest, childFind c.commands a = none →
      helpRun (f + 1) anc w c (a :: rest) =
        some (.error (.plainErr (helpPathOf anc c ++ " "
          ++ String.intercalate " " (a :: rest)
          ++ ": unknown help topic. Run " ++ goQuote (helpPathOf anc c))), []) ∧
      isUsageError (.plainErr (helpPathOf anc c ++ " "
        ++ String.intercalate " " (a :: rest)
        ++ ": unknown help topic. Run " ++ goQuote (helpPathOf anc c))) = false) := by
  obtain ⟨u, s, l, r, fp, si, so, se, fl, kids⟩ := c
  refine ⟨fun m hfp => ?_, fun tok rest' hrun hk hfp hch hhelp => ?_,
    fun a rest hch => ?_⟩
  · simp only [Cmd.flagParse] at hfp
    exact ⟨by simp [executeT, hfp], rfl⟩
  · simp only [Cmd.run] at hrun
    subst hrun
    simp only [Cmd.flagParse] at hfp
    simp only [Cmd.hasChildren, Cmd.commands] at hk
    simp only [Cmd.commands] at hch
    exact ⟨by simp [executeT, hfp, hch, hhelp, Cmd.hasChildren, hk], rfl⟩
  · simp only [Cmd.commands] at hch
    exact ⟨by simp [helpRun, hch], rfl⟩

def w3topic : Cmd := .mk "doc" "" "" none (fun _ => .failure "bad flag")
    none none none none []

def w3disp : Cmd := .mk "par" "" "" none fpPass none none none none [("doc", w3topic)]

/-- Witness for C3: a flag-parse failure and an unknown-command failure
are tagged usage errors; an unknown help topic is a plain error. -/
theorem usage_error_tagging_witness :
    (executeT 1 [] .procOut .procErr w3topic ["--bad"] =
      some (.error (.usageErr "doc" "doc: bad flag"), [], w3topic.withFlags ["--bad"]) ∧
      isUsageError (.usageErr "doc" "doc: bad flag") = true) ∧
    (executeT 1 [] .procOut .procErr w3disp ["zap"] =
      some (.error (.usageErr "par" "par zap: unknown command"), [],
        w3disp.withFlags ["zap"]) ∧
      isUsageError (.usageErr "par" "par zap: unknown command") = true) ∧
    (helpRun 1 [] .procOut w3disp ["zap"] =
      some (.error (.plainErr "par help zap: unknown help topic. Run \"par help\""),
        []) ∧
      isUsageError (.plainErr "par help zap: unknown help topic. Run \"par help\"") =
        false) :=
  ⟨(usage_error_tagging 0 [] .procOut .procErr .procOut w3topic ["--bad"]).1
      "bad flag" rfl,
    (usage_error_tagging 0 [] .procOut .procErr .procOut w3disp ["zap"]).2.1
      "zap" [] rfl rfl rfl rfl (by decide),
    (usage_error_tagging 0 [] .procOut .procErr .procOut w3disp ["zap"]).2.2
      "zap" [] rfl⟩

/-! ### Claim C7: the title line of the static help render

The claim says the first line is the short description *modified only by
title-casing its first letter — every other character unchanged*.  The
code's `toTitle` first re-joins `strings.Fields` with single spaces, which
collapses interior whitespace runs and strips leading/trailing
whitespace, before title-casing the first rune. -/

/-- The title transformation as the spec's words describe it (title-case
the first letter of the short description only, every other character
unchanged) — for comparison with the code's `goToTitle`. -/
def specTitleFirst (s : String) : String :=
  match s.data with
  | [] => ""
  | ch :: t => ⟨Char.toUpper ch :: t⟩

def cexC7 : Cmd := .mk "t" "hello  world" "" none fpPass none none none none []

/-- Counterexample for C7: a short description with a double space is
emitted with the run collapsed to a single space, not unchanged after
the first letter. -/
theorem help_title_counterexample :
    helpText [] cexC7 = "Hello world\n\n" ∧
    specTitleFirst (Cmd.short cexC7) ++ "\n\n" = "Hello  world\n\n" ∧
    ("Hello world\n\n" : String) ≠ "Hello  world\n\n" :=
  ⟨rfl, rfl, by decide⟩

/-- **C7 (amended).** The first emitted block of the static help render
is the short description with its whitespace fields re-joined by single
spaces and the first letter title-cased, followed by a blank line; when
the short description is already whitespace-normal (it equals its fields
re-joined by single spaces — in particular every ordinary one-line
description), this agrees with the claim's transformation that title-
cases the first letter and leaves every other character unchanged. -/
theorem help_title_line (anc : List String) (c : Cmd) :
    (∃ rest, helpText anc c = goToTitle c.short ++ ("\n\n" ++ rest)) ∧
    (∀ s, String.intercalate " " (goFields s) = s →
      goToTitle s = specTitleFirst s) := by
  constructor
  · unfold helpText
    dsimp only
    split
    · exact ⟨_, by simp only [String.append_assoc]; rfl⟩
    · split
      · exact ⟨_, by simp only [String.append_assoc]; rfl⟩
      · exact ⟨_, by simp only [String.append_assoc]; rfl⟩
  · intro s hs
    unfold goToTitle specTitleFirst
    rw [hs]

/-- Witness for C7: the agreement on a whitespace-normal short
description, and the title block of a concrete render. -/
theorem help_title_line_witness :
    goToTitle "print a hello message" = specTitleFirst "print a hello message" ∧
    (∃ rest, helpText [] cexC7 = goToTitle (Cmd.short cexC7) ++ ("\n\n" ++ rest)) :=
  ⟨(help_title_line [] cexC7).2 "print a hello message" rfl,
    (help_title_line [] cexC7).1⟩

/-! ### Association-list lemmas for the child map -/

theorem alookS_mem {l : List (String × Cmd)} {x : String} {ch : Cmd} :
    alookS l x = some ch → (x, ch) ∈ l := by
  induction l with
  | nil => intro h; simp [alookS] at h
  | cons hd t ih =>
    rcases hd with ⟨k, v⟩
    intro h
    simp only [alookS] at h
    by_cases hk : x = k
    · rw [if_pos hk] at h
      injection h with h
      simp [hk, h]
    · rw [if_neg hk] at h
      simp [ih h]

theorem alookS_of_mem_nodup {l : List (String × Cmd)} {x : String} {ch : Cmd}
    (hnd : (l.map Prod.fst).Nodup) (hm : (x, ch) ∈ l) : alookS l x = some ch := by
  induction l with
  | nil => simp at hm
  | cons hd t ih =>
    rcases hd with ⟨k, v⟩
    simp only [List.map_cons, List.nodup_cons] at hnd
    rcases List.mem_cons.1 hm with h | h
    · injection h with h1 h2
      simp [alookS, h1, h2]
    · have hx : x ≠ k := by
        rintro rfl
        exact hnd.1 (List.mem_map.2 ⟨(x, ch), h, rfl⟩)
      simp [alookS, hx, ih hnd.2 h]

theorem alookS_eq_none_iff {l : List (String × Cmd)} {x : String} :
    alookS l x = none ↔ x ∉ l.map Prod.fst := by
  induction l with
  | nil => simp [alookS]
  | cons hd t ih =>
    rcases hd with ⟨k, v⟩
    by_cases hk : x = k
    · simp [alookS, hk]
    · simp [alookS, hk, ih]

/-! ### Claim C10: headings of the child listings -/

/-- The skip condition of the first rendering loop holds exactly for help
topics: no action and no children. -/
theorem topic_flag_iff {cmd : Cmd} :
    (cmd.run.isNone && !cmd.hasChildren) = true ↔
      cmd.run = none ∧ cmd.commands = [] := by
  obtain ⟨u, s, l, r, fp, si, so, se, fl, kids⟩ := cmd
  cases r <;> cases kids <;> simp [Cmd.hasChildren]

/-- The flag of the first rendering loop is set exactly when some listed
name resolves to a help-topic child. -/
theorem cmdLines_flag_iff {kids : List (String × Cmd)} :
    ∀ names, (cmdLines kids names).2 = true ↔
      ∃ n ∈ names, ∃ ch, childFind kids n = some ch ∧
        ch.run = none ∧ ch.commands = [] := by
  intro names
  induction names with
  | nil => simp [cmdLines]
  | cons n t ih =>
    simp only [cmdLines]
    rcases hch : childFind kids n with _ | cmd
    · dsimp only
      simp only [List.mem_cons]
      rw [ih]
      constructor
      · rintro ⟨m, hm, hrest⟩
        exact ⟨m, .inr hm, hrest⟩
      · rintro ⟨m, hm | hm, hrest⟩
        · subst hm
          rw [hch] at hrest
          obtain ⟨ch, hsome, _⟩ := hrest
          cases hsome
        · exact ⟨m, hm, hrest⟩
    · dsimp only
      by_cases ht : cmd.run.isNone && !cmd.hasChildren
      · rw [if_pos ht]
        rw [topic_flag_iff] at ht
        exact ⟨fun _ => ⟨n, by simp, cmd, hch, ht.1, ht.2⟩, fun _ => rfl⟩
      · rw [if_neg ht]
        dsimp only
        rw [ih]
        constructor
        · rintro ⟨m, hm, hrest⟩
          exact ⟨m, by simp [hm], hrest⟩
        · rintro ⟨m, hm, ch, hsome, hr, hk⟩
          rcases List.mem_cons.1 hm with rfl | hm
          · rw [hch] at hsome
            injection hsome with hsome
            subst hsome
            exact absurd (topic_flag_iff.2 ⟨hr, hk⟩) ht
          · exact ⟨m, hm, ch, hsome, hr, hk⟩

/-- A child's stored name appears among the sorted listed names. -/
theorem mem_childNames {kids : List (String × Cmd)} {p : String × Cmd}
    (hm : p ∈ kids) : p.2.name ∈ childNames kids := by
  unfold childNames sortStrings
  have : p.2.name ∈ kids.map (fun q => q.2.name) :=
    List.mem_map.2 ⟨p, hm, rfl⟩
  exact ((List.perm_insertionSort _ _).mem_iff).2 this

/-- **C10.** For every node with at least one child (hypotheses: the
stored child keys are distinct, non-empty, lower-case, and each equals
its child's derived name — all guaranteed for trees built through
`Add`): the static help render always emits the `The commands are:`
heading followed by the command lines and the closing
`Use "<help-path> <command>" ...` hint — even when every child is a help
topic and the listing between them is empty — and appends the
`Additional help topics:` section (heading, topic lines, topic hint)
exactly when the loop flag is set, which happens iff at least one child
is a help topic. -/
theorem commands_heading_unconditional (anc : List String) (c : Cmd)
    (hk : c.hasChildren = true)
    (hkeys : (c.commands.map Prod.fst).Nodup)
    (hnames : ∀ p ∈ c.commands, p.1 = p.2.name)
    (hne : ∀ p ∈ c.commands, p.1 ≠ "")
    (hlow : ∀ p ∈ c.commands, goToLower p.1 = p.1) :
    (∃ pre,
      helpText anc c =
        pre ++ ("The commands are:\n\n"
          ++ ((cmdLines c.commands (childNames c.commands)).1
          ++ (("\nUse " ++ (goQuote (helpPathOf anc c ++ " <command>")
              ++ " for more information about a command.\n\n"))
          ++ (if (cmdLines c.commands (childNames c.commands)).2 then
                "Additional help topics:\n\n"
                  ++ (topicLines c.commands (childNames c.commands)
                  ++ ("\nUse " ++ (goQuote (helpPathOf anc c ++ " <topic>")
                    ++ " for more information about that topic.\n\n")))
              else ""))))) ∧
    ((cmdLines c.commands (childNames c.commands)).2 = true ↔
      ∃ p ∈ c.commands, p.2.run = none ∧ p.2.commands = []) := by
  constructor
  · refine ⟨goToTitle c.short ++ "\n\n"
      ++ (if c.run.isSome || c.hasChildren then
            "Usage:\n\n    " ++ longUsageOf anc c ++ "\n\n" else "")
      ++ (if goTrim c.long ≠ "" then goTrim c.long ++ "\n\n" else ""), ?_⟩
    simp only [helpText, hk, Bool.not_true, if_false]
    rcases h2 : (cmdLines c.commands (childNames c.commands)).2 with _ | _
    · simp only [Bool.not_false, if_true, if_false, String.append_empty,
        String.append_assoc]
      rfl
    · simp only [Bool.not_true, if_false, if_true, String.append_assoc]
      rfl
  · rw [cmdLines_flag_iff]
    constructor
    · rintro ⟨n, _, ch, hfind, hr, hkk⟩
      unfold childFind at hfind
      by_cases hz : goToLower n = ""
      · rw [if_pos hz] at hfind
        cases hfind
      · rw [if_neg hz] at hfind
        exact ⟨(goToLower n, ch), alookS_mem hfind, hr, hkk⟩
    · rintro ⟨⟨k, ch⟩, hm, hr, hkk⟩
      have hkn : k = ch.name := hnames _ hm
      refine ⟨ch.name, mem_childNames (p := (k, ch)) hm, ch, ?_, hr, hkk⟩
      unfold childFind
      have hlk : goToLower ch.name = ch.name := by
        rw [← hkn]
        exact hlow _ hm
      rw [hlk, if_neg (by rw [← hkn]; exact hne _ hm)]
      rw [← hkn]
      exact alookS_of_mem_nodup hkeys hm

def w10run : Cmd := .mk "sub" "a command" "" (some fun _ => none) fpPass none none none none []

def w10doc : Cmd := .mk "doc2" "a topic" "" none fpPass none none none none []

def w10all : Cmd :=
  .mk "par2" "" "" none fpPass none none none none [("sub", w10run), ("doc2", w10doc)]

/-- Witness for C10: a dispatcher with one runnable child and one topic
child — the commands heading and hint are emitted, and the topics flag is
set exactly because a topic child exists. -/
theorem commands_heading_unconditional_witness :
    (∃ pre,
      helpText [] w10all =
        pre ++ ("The commands are:\n\n"
          ++ ((cmdLines w10all.commands (childNames w10all.commands)).1
          ++ (("\nUse " ++ (goQuote (helpPathOf [] w10all ++ " <command>")
              ++ " for more information about a command.\n\n"))
          ++ (if (cmdLines w10all.commands (childNames w10all.commands)).2 then
                "Additional help topics:\n\n"
                  ++ (topicLines w10all.commands (childNames w10all.commands)
                  ++ ("\nUse " ++ (goQuote (helpPathOf [] w10all ++ " <topic>")
                    ++ " for more information about that topic.\n\n")))
              else ""))))) ∧
    ((cmdLines w10all.commands (childNames w10all.commands)).2 = true ↔
      ∃ p ∈ w10all.commands, p.2.run = none ∧ p.2.commands = []) :=
  commands_heading_unconditional [] w10all rfl (by decide) (by decide)
    (by decide) (by decide)

/-! ### Claim C8: help rendering does not depend on map iteration order

In Go, `help` enumerates `c.commands` — a map, whose iteration order is
arbitrary — and sorts the collected names (`Command.children`), looking
each one up again.  In the model the enumeration order is the order of
the association list, so the claim that two renders of the same tree
state are byte-identical becomes: the rendered text is invariant under
permuting the child list (keys distinct, as they are in every map). -/

theorem alookS_perm {l l' : List (String × Cmd)} (hp : l.Perm l')
    (hnd : (l.map Prod.fst).Nodup) (x : String) : alookS l x = alookS l' x := by
  rcases h : alookS l x with _ | ch
  · rcases h' : alookS l' x with _ | ch'
    · rfl
    · rw [alookS_eq_none_iff] at h
      exact absurd ((hp.map Prod.fst).mem_iff.2
        (List.mem_map.2 ⟨(x, ch'), alookS_mem h', rfl⟩)) h
  · exact (alookS_of_mem_nodup ((hp.map Prod.fst).nodup_iff.1 hnd)
      (hp.mem_iff.1 (alookS_mem h))).symm

theorem childFind_perm {l l' : List (String × Cmd)} (hp : l.Perm l')
    (hnd : (l.map Prod.fst).Nodup) (n : String) :
    childFind l n = childFind l' n := by
  unfold childFind
  by_cases hz : goToLower n = ""
  · simp [hz]
  · simp only [if_neg hz]
    exact alookS_perm hp hnd _

theorem cmdLines_congr {l l' : List (String × Cmd)}
    (h : ∀ n, childFind l n = childFind l' n) :
    ∀ names, cmdLines l names = cmdLines l' names := by
  intro names
  induction names with
  | nil => rfl
  | cons n t ih => simp only [cmdLines, ih, h n]

theorem topicLines_congr {l l' : List (String × Cmd)}
    (h : ∀ n, childFind l n = childFind l' n) :
    ∀ names, topicLines l names = topicLines l' names := by
  intro names
  induction names with
  | nil => rfl
  | cons n t ih => simp only [topicLines, ih, h n]

theorem childNames_perm {l l' : List (String × Cmd)} (hp : l.Perm l') :
    childNames l = childNames l' := by
  unfold childNames sortStrings
  refine List.eq_of_perm_of_sorted ?_ (List.sorted_insertionSort _ _)
    (List.sorted_insertionSort _ _)
  exact ((List.perm_insertionSort _ _).trans
    (hp.map _)).trans (List.perm_insertionSort _ _).symm

/-- **C8.** Static help rendering is deterministic: for one and the same
tree state, the rendered text does not depend on the enumeration order
of the child map — for any permutation of the child list (child names
distinct, as map keys are), the output is byte-identical; in particular
two renders with the tree unchanged in between produce identical
output, because the enumerated names are sorted and each is looked up
afresh. -/
theorem help_render_order_independent (anc : List String)
    (u s l : String) (r : Option (List String → Option GoErr))
    (fp : List String → FlagOutcome) (si so se : Option SWriter)
    (fl : Option (List String)) (kids kids' : List (String × Cmd))
    (hperm : kids.Perm kids') (hnd : (kids.map Prod.fst).Nodup) :
    helpText anc (.mk u s l r fp si so se fl kids) =
      helpText anc (.mk u s l r fp si so se fl kids') := by
  have hfind : ∀ n, childFind kids n = childFind kids' n :=
    childFind_perm hperm hnd
  have hnames : childNames kids = childNames kids' := childNames_perm hperm
  have hempty : kids.isEmpty = kids'.isEmpty := by
    rcases kids with _ | ⟨a, t⟩
    · simp [hperm.nil_eq.symm]
    · rcases kids' with _ | ⟨a', t'⟩
      · exact absurd hperm.symm.nil_eq (by simp)
      · rfl
  simp only [helpText, Cmd.hasChildren, Cmd.commands, Cmd.run, Cmd.short,
    Cmd.long, hempty, hnames, cmdLines_congr hfind, topicLines_congr hfind,
    longUsageOf, helpPathOf, Cmd.name, Cmd.usage]

def w8a : Cmd := .mk "alpha" "first" "" (some fun _ => none) fpPass none none none none []

def w8b : Cmd := .mk "beta" "second" "" none fpPass none none none none []

/-- Witness for C8: swapping the two entries of the child list leaves the
rendered help byte-identical. -/
theorem help_render_order_independent_witness :
    helpText [] (.mk "app8" "" "" none fpPass none none none none
        [("alpha", w8a), ("beta", w8b)]) =
      helpText [] (.mk "app8" "" "" none fpPass none none none none
        [("beta", w8b), ("alpha", w8a)]) :=
  help_render_order_independent [] "app8" "" "" none fpPass none none none none
    [("alpha", w8a), ("beta", w8b)] [("beta", w8b), ("alpha", w8a)]
    (List.Perm.swap ("beta", w8b) ("alpha", w8a) []) (by decide)

/-! ### Claim C9: `Execute` only writes the transient flag state

`Execute` mutates `c.flags` on each node it visits (line 161 of
`command.go`) and nothing else; in the model the mutation shows up in
the tree returned by `executeT`.  The relation below says two trees are
identical in every declarative field — `Usage`, `Short`, `Long`, `Run`,
`SetFlags`/flag behaviour, the stdio overrides — and have the same child
keys in the same structure, differing at most in the transient `flags`
fields.  (Actions and flag-setup callbacks are pure functions of the
model, so the claim's proviso that the callbacks do not mutate the tree
holds by construction; the parent reference is represented by the
position of a node inside its parent's child list, which the relation
preserves.) -/

mutual
inductive SameButFlags : Cmd → Cmd → Prop
  | mk (u s l : String) (r : Option (List String → Option GoErr))
      (fp : List String → FlagOutcome) (si so se : Option SWriter)
      (fl fl' : Option (List String)) (kids kids' : List (String × Cmd)) :
      SameKidsBF kids kids' →
      SameButFlags (.mk u s l r fp si so se fl kids)
        (.mk u s l r fp si so se fl' kids')

inductive SameKidsBF : List (String × Cmd) → List (String × Cmd) → Prop
  | nil : SameKidsBF [] []
  | cons (k : String) {v v' : Cmd} {t t' : List (String × Cmd)} :
      SameButFlags v v' → SameKidsBF t t' →
      SameKidsBF ((k, v) :: t) ((k, v') :: t')
end

mutual
theorem sameButFlags_refl : (c : Cmd) → SameButFlags c c
  | .mk u s l r fp si so se fl kids =>
    .mk u s l r fp si so se fl fl kids kids (sameKidsBF_refl kids)

theorem sameKidsBF_refl : (l : List (String × Cmd)) → SameKidsBF l l
  | [] => .nil
  | (k, v) :: t => .cons k (sameButFlags_refl v) (sameKidsBF_refl t)
end

/-- Setting the transient flag state relates a node to itself. -/
theorem sameButFlags_withFlags (c : Cmd) (args : List String) :
    SameButFlags c (c.withFlags args) := by
  obtain ⟨u, s, l, r, fp, si, so, se, fl, kids⟩ := c
  exact .mk u s l r fp si so se fl (some args) kids kids (sameKidsBF_refl kids)

/-- Replacing the child found under key `k` by a flags-only variant of it
relates the child list to itself. -/
theorem sameKidsBF_replace {kids : List (String × Cmd)} {k : String}
    {ch ch' : Cmd} (hm : alookS kids k = some ch) (h : SameButFlags ch ch') :
    SameKidsBF kids (replaceKid kids k ch') := by
  induction kids with
  | nil => simp [alookS] at hm
  | cons hd t ih =>
    rcases hd with ⟨k0, v0⟩
    simp only [alookS] at hm
    by_cases hk : k = k0
    · rw [if_pos hk] at hm
      injection hm with hm
      subst hm
      simp only [replaceKid, if_pos hk]
      exact .cons k0 h (sameKidsBF_refl t)
    · rw [if_neg hk] at hm
      simp only [replaceKid, if_neg hk]
      exact .cons k0 (sameButFlags_refl v0) (ih hm)

/-- **C9.** For every node, argument vector and fuel, whenever `Execute`
returns (including recursive dispatch and interactive help resolution),
the resulting tree is identical to the original in every declarative
field and in its topology — `Usage`, `Short`, `Long`, `Run`, the flag
behaviour, the stdio overrides, and the child keys and structure are all
unchanged; the only node-resident state that may differ is the transient
`flags` field of the visited nodes. -/
theorem execute_frame :
    ∀ (f : Nat) (anc : List String) (io ie : SWriter) (c : Cmd)
      (args : List String) (res : Except GoErr Unit)
      (effs : List (SWriter × String)) (c' : Cmd),
      executeT f anc io ie c args = some (res, effs, c') →
      SameButFlags c c' := by
  intro f
  induction f with
  | zero =>
    intro anc io ie c args res effs c' h
    simp [executeT] at h
  | succ f ih =>
    intro anc io ie c args res effs c' h
    obtain ⟨u, s, l, r, fp, si, so, se, fl, kids⟩ := c
    have base : SameButFlags (Cmd.mk u s l r fp si so se fl kids)
        (Cmd.mk u s l r fp si so se (some args) kids) :=
      .mk u s l r fp si so se fl (some args) kids kids (sameKidsBF_refl kids)
    rcases hfp : fp args with _ | m | rest
    · -- help request: all three routes return the flags-updated node
      simp only [executeT, Cmd.flagParse, hfp, Cmd.withFlags, Cmd.hasChildren,
        Cmd.commands, Cmd.run, Cmd.stdoutO, Cmd.stderrO] at h
      split at h <;> [skip; split at h] <;>
        · simp only [Option.some_inj, Prod.mk.injEq] at h
          obtain ⟨-, -, rfl⟩ := h
          exact base
    · -- flag-parse failure
      simp only [executeT, Cmd.flagParse, hfp, Cmd.withFlags] at h
      simp only [Option.some_inj, Prod.mk.injEq] at h
      obtain ⟨-, -, rfl⟩ := h
      exact base
    · rcases r with _ | act
      · -- dispatcher
        by_cases hkE : kids.isEmpty = true
        · simp only [executeT, Cmd.flagParse, hfp, Cmd.withFlags, Cmd.hasChildren,
            Cmd.commands, Cmd.run, hkE, Option.some_inj, Prod.mk.injEq] at h
          obtain ⟨-, -, rfl⟩ := h
          exact base
        · rcases rest with _ | ⟨tok, rest'⟩
          · simp only [executeT, Cmd.flagParse, hfp, Cmd.withFlags, Cmd.hasChildren,
              Cmd.commands, Cmd.run, Cmd.stderrO, hkE, Option.some_inj,
              Prod.mk.injEq] at h
            obtain ⟨-, -, rfl⟩ := h
            exact base
          · rcases hfind : childFind kids tok with _ | ch
            · by_cases hhelp : goToLower tok = "help"
              · rcases hH : helpRun f anc (so.getD io)
                    (Cmd.mk u s l none fp si so se (some args) kids) rest'
                    with _ | ⟨r', effs'⟩
                · simp [executeT, Cmd.flagParse, hfp, Cmd.hasChildren,
                    Cmd.commands, Cmd.run, Cmd.stdoutO, Cmd.withFlags,
                    hkE, hfind, hhelp, hH] at h
                · simp only [executeT, Cmd.flagParse, hfp, Cmd.withFlags,
                    Cmd.hasChildren, Cmd.commands, Cmd.run, Cmd.stdoutO, hkE,
                    hfind, hhelp, ne_eq, hH, Option.some_inj, Prod.mk.injEq,
                    not_true_eq_false, if_false, Bool.not_eq_true,
                    ite_false] at h
                  obtain ⟨-, -, rfl⟩ := h
                  exact base
              · simp only [executeT, Cmd.flagParse, hfp, Cmd.withFlags,
                  Cmd.hasChildren, Cmd.commands, Cmd.run, hkE, hfind, ne_eq,
                  hhelp, not_false_eq_true, if_true, ite_true, Option.some_inj,
                  Prod.mk.injEq] at h
                obtain ⟨-, -, rfl⟩ := h
                exact base
            · rcases hE : executeT f (anc ++ [goNameOf u]) (so.getD io) (se.getD ie)
                  ch rest' with _ | ⟨r', effs', ch'⟩
              · simp [executeT, Cmd.flagParse, hfp, Cmd.hasChildren, Cmd.commands,
                  Cmd.run, Cmd.stdoutO, Cmd.stderrO, Cmd.name, Cmd.usage,
                  Cmd.withFlags, hkE, hfind, hE] at h
              · simp only [executeT, Cmd.flagParse, hfp, Cmd.withFlags,
                  Cmd.hasChildren, Cmd.commands, Cmd.run, Cmd.stdoutO, Cmd.stderrO,
                  Cmd.name, Cmd.usage, Cmd.withKids, hkE, hfind, hE,
                  Option.some_inj, Prod.mk.injEq] at h
                obtain ⟨-, -, rfl⟩ := h
                have hal : alookS kids (goToLower tok) = some ch := by
                  simp only [childFind] at hfind
                  split at hfind
                  · cases hfind
                  · exact hfind
                exact .mk u s l none fp si so se fl (some args) kids _
                  (sameKidsBF_replace hal (ih _ _ _ _ _ _ _ _ hE))
      · -- runnable
        rcases hact : act rest with _ | e
        · simp only [executeT, Cmd.flagParse, hfp, Cmd.withFlags, Cmd.run,
            hact, Option.some_inj, Prod.mk.injEq] at h
          obtain ⟨-, -, rfl⟩ := h
          exact base
        · rcases e with ⟨p, m⟩ | m <;>
            · simp only [executeT, Cmd.flagParse, hfp, Cmd.withFlags, Cmd.run,
                hact, Option.some_inj, Prod.mk.injEq] at h
              obtain ⟨-, -, rfl⟩ := h
              exact base

def w9kid : Cmd := .mk "kid" "" "" (some fun _ => none) fpPass none none none none []

def w9app : Cmd :=
  .mk "app9" "" "" none fpPass none none none none [("kid", w9kid)]

/-- The tree after `w9app.Execute(["kid"])`: only the two visited nodes'
transient flag states have been filled in. -/
def w9appAfter : Cmd :=
  .mk "app9" "" "" none fpPass none none none (some ["kid"])
    [("kid", .mk "kid" "" "" (some fun _ => none) fpPass none none none (some []) [])]

/-- Witness for C9: the concrete dispatch leaves the tree identical up to
the transient flag fields. -/
theorem execute_frame_witness : SameButFlags w9app w9appAfter :=
  execute_frame 2 [] .procOut .procErr w9app ["kid"] (.ok ()) [] w9appAfter rfl

end CommandProof
